import Mathlib

/-!
Verification development for the Smart-data-merger core engine
(`src/core.py`, class `MergeEngine`).

Shallow embedding conventions:
* Cell values are modelled by `Cell`: either absent (`null`, pandas `NaN`)
  or a string (`str s`).  pandas `astype(str)` renders `NaN` as `"nan"`,
  numbers by their decimal rendering (whence the `".0"` artifacts); a
  numeric cell is represented here by its rendered string.
* Python strings are modelled by `String`, with all the used string
  operations (`strip`, `replace('.0', '')`, `upper`, `lower`) implemented
  by structural recursion over `List Char` so that every definition is
  kernel-computable.  `str.strip` is modelled on ASCII whitespace.
* Python float arithmetic on ratios is modelled by exact rationals `ℚ`;
  divisions are written with `mkRat` (rational division by a natural,
  with the convention `mkRat a 0 = 0`, matching the code's explicit
  `if total > 0 else 0` guards; the one unguarded division in
  `detect_merge_keys` sits in a `try` block whose `ZeroDivisionError`
  path is modelled explicitly by skipping the pair).
* `fuzzywuzzy.fuzz.ratio(a, b) / 100` is an external library call; it is
  modelled by an abstract parameter `nameSim : String → String → ℚ`,
  applied (as in the source) to the lower-cased column names.
* Python `list.sort(key=..., reverse=True)` is modelled by
  `List.insertionSort` with the corresponding "greater or equal on the
  key" relation; the claims touched here depend only on sortedness and
  membership, not on the order of ties.
-/

/-- ASCII whitespace, as stripped by Python `str.strip` (model). -/
def isSpaceChar (c : Char) : Bool :=
  c = ' ' || c = '\t' || c = '\n' || c = '\r'

/-- `s.replace('.0', '')` on char lists: Python `str.replace` scans left to
right and removes every non-overlapping occurrence of the substring `".0"`. -/
def remDot0 : List Char → List Char
  | [] => []
  | [c] => [c]
  | c :: d :: rest =>
    if c = '.' ∧ d = '0' then remDot0 rest else c :: remDot0 (d :: rest)

/-- Left-trim of ASCII whitespace. -/
def trimLeft (l : List Char) : List Char := l.dropWhile isSpaceChar

/-- Python `str.strip` on char lists: drop whitespace at both ends. -/
def trimList (l : List Char) : List Char :=
  ((trimLeft l).reverse.dropWhile isSpaceChar).reverse

/-- Python `str.strip` on strings (model). -/
def pyStrip (s : String) : String := ⟨trimList s.data⟩

/-- Python `str.replace('.0', '')` on strings (model). -/
def pyRemoveDot0 (s : String) : String := ⟨remDot0 s.data⟩

/-- Python `str.upper` on strings (ASCII model). -/
def pyUpper (s : String) : String := ⟨s.data.map Char.toUpper⟩

/-- Python `str.lower` on strings (ASCII model). -/
def pyLower (s : String) : String := ⟨s.data.map Char.toLower⟩

/-- A cell of a dataframe: absent (`NaN`) or a string value. -/
inductive Cell
  | null
  | str (s : String)
deriving DecidableEq

/-- pandas `astype(str)` on one cell: `NaN` renders as `"nan"`. -/
def Cell.astype : Cell → String
  | .null => "nan"
  | .str s => s

/-- The Normalizer (spec 4.1), which is the inline chain used by
`detect_merge_keys` (core.py lines 122-127):
`astype(str).str.strip().str.replace('.0', '').str.upper()`,
applied here to an already-rendered string. -/
def normalizeToken (s : String) : String := pyUpper (pyRemoveDot0 (pyStrip s))

/-- The Merge Executor's inline key normalization (core.py lines 250-251):
`astype(str).str.strip().str.replace('.0', '')` - note: no case folding. -/
def normalizeMergeKey (s : String) : String := pyRemoveDot0 (pyStrip s)

/-- `normalize_tracking_code` (core.py lines 380-384). -/
def normalize_tracking_code : Cell → String
  | .null => ""
  | .str s => if s = "" then "" else pyUpper (pyStrip s)

-- quick sanity examples (kernel-computability checks)
example : normalizeToken " a1.0 " = "A1" := by decide
example : normalizeToken "..00" = ".0" := by decide
example : normalizeToken ".0" = "" := by decide
example : normalizeMergeKey " a.0 " = "a" := by decide

/-- A loaded dataframe: column names plus rows of cells (row `r`'s value in
the `i`-th column is `r.getD i Cell.null`; a short row reads as absent). -/
structure Dataset where
  cols : List String
  rows : List (List Cell)
deriving DecidableEq

/-- Values of the column named `c` (empty when `c` is not a column). -/
def Dataset.col (d : Dataset) (c : String) : List Cell :=
  match d.cols.findIdx? (· == c) with
  | some i => d.rows.map (fun r => r.getD i Cell.null)
  | none => []

/-- pandas `Series.nunique`: number of distinct non-null values (raw values,
no normalization). -/
def nunique (l : List Cell) : Nat := ((l.filter (· != Cell.null)).dedup).length

/-- The per-column uniqueness test of `detect_merge_keys` (core.py lines
97-109): `df[col].nunique() / len(df) > 0.7`. -/
def uniqOver07 (d : Dataset) (c : String) : Bool :=
  decide (mkRat (nunique (d.col c)) d.rows.length > mkRat 7 10)

/-- Candidate key columns of one dataset: the columns retained by the
uniqueness filter in `detect_merge_keys`. -/
def candidateCols (d : Dataset) : List String := d.cols.filter (uniqOver07 d)

/-- Tokens treated as absent by `detect_merge_keys` (core.py line 126). -/
def absentTokens : List String := ["", "NAN", "NONE", "NULL"]

/-- The normalized value set of a column as built at core.py lines 122-127:
`set(df[col].astype(str).str.strip().str.replace('.0', '').str.upper())`
minus `['', 'NAN', 'NONE', 'NULL']` (a set, modelled as a deduped list). -/
def tokenSet (l : List Cell) : List String :=
  ((l.map (fun v => normalizeToken v.astype)).dedup).filter
    (fun t => decide (t ∉ absentTokens))

/-- Size of the intersection of two sets given as deduped lists. -/
def interCount (s1 s2 : List String) : Nat :=
  (s1.filter (fun t => decide (t ∈ s2))).length

/-- One entry of the candidate list built by `detect_merge_keys`:
`(col1, col2, combined_score, len(intersection))`. -/
structure Cand where
  col1 : String
  col2 : String
  score : ℚ
  match_count : Nat
deriving DecidableEq

/-- The unsorted candidate list of `detect_merge_keys` (core.py lines
111-156).  `nameSim` abstracts `fuzz.ratio(a, b) / 100`; as in the source it
is applied to the lower-cased column names.  A pair whose two value sets are
not both nonempty is skipped (the `continue` at line 142, and the
`ZeroDivisionError` caught at line 154 when `min(len1, len2) = 0`). -/
def overlap_ratio (d1 d2 : Dataset) (c1 c2 : String) : ℚ :=
  mkRat (interCount (tokenSet (d1.col c1)) (tokenSet (d2.col c2)))
    (min (tokenSet (d1.col c1)).length (tokenSet (d2.col c2)).length)

/-- `combined_score = (name_similarity * 0.3) + (overlap_ratio * 0.7)`
(core.py line 149); `nameSim` abstracts `fuzz.ratio(a, b) / 100` and, as in
the source, is applied to the lower-cased column names. -/
def combined_score (nameSim : String → String → ℚ) (d1 d2 : Dataset)
    (c1 c2 : String) : ℚ :=
  nameSim (pyLower c1) (pyLower c2) * mkRat 3 10 + overlap_ratio d1 d2 c1 c2 * mkRat 7 10

def rawCandidates (nameSim : String → String → ℚ) (d1 d2 : Dataset)
    (min_match_ratio : ℚ) : List Cand :=
  (candidateCols d1).flatMap (fun c1 =>
    (candidateCols d2).filterMap (fun c2 =>
      if tokenSet (d1.col c1) = [] ∨ tokenSet (d2.col c2) = [] then none
      else if min_match_ratio ≤ combined_score nameSim d1 d2 c1 c2 then
        some ⟨c1, c2, combined_score nameSim d1 d2 c1 c2,
          interCount (tokenSet (d1.col c1)) (tokenSet (d2.col c2))⟩
      else none))

/-- The sort order of `candidates.sort(key=lambda x: (x[2], x[3]),
reverse=True)`: `a` may precede `b` iff the pair (score, matches) of `a` is
lexicographically at least that of `b`. -/
def candGe (a b : Cand) : Prop :=
  b.score < a.score ∨ (b.score = a.score ∧ b.match_count ≤ a.match_count)

instance : DecidableRel candGe := fun a b => by unfold candGe; infer_instance

instance : IsTotal Cand candGe := by
  constructor
  intro a b
  unfold candGe
  rcases lt_trichotomy a.score b.score with h | h | h
  · exact Or.inr (Or.inl h)
  · rcases Nat.le_total b.match_count a.match_count with hm | hm
    · exact Or.inl (Or.inr ⟨h.symm, hm⟩)
    · exact Or.inr (Or.inr ⟨h, hm⟩)
  · exact Or.inl (Or.inl h)

instance : IsTrans Cand candGe := by
  constructor
  intro a b c hab hbc
  unfold candGe at *
  rcases hab with h1 | ⟨h1, m1⟩
  · rcases hbc with h2 | ⟨h2, hm2⟩
    · exact Or.inl (h2.trans h1)
    · exact Or.inl (h2.trans_lt h1)
  · rcases hbc with h2 | ⟨h2, m2⟩
    · exact Or.inl (h2.trans_eq h1)
    · exact Or.inr ⟨h2.trans h1, m2.trans m1⟩

/-- `detect_merge_keys` (core.py lines 84-165), returning the sorted
candidate list (with match counts; the engine then stores the triples with
the match count dropped). -/
def detect_merge_keys (nameSim : String → String → ℚ) (d1 d2 : Dataset)
    (min_match_ratio : ℚ) : List Cand :=
  (rawCandidates nameSim d1 d2 min_match_ratio).insertionSort candGe

/-- The triples `(col1, col2, score)` stored in `self.detected_keys`. -/
def detectedTriples (nameSim : String → String → ℚ) (d1 d2 : Dataset)
    (min_match_ratio : ℚ) : List (String × String × ℚ) :=
  (detect_merge_keys nameSim d1 d2 min_match_ratio).map
    (fun c => (c.col1, c.col2, c.score))

example :
    candidateCols ⟨["c"], [[Cell.str "a"], [Cell.str "A"], [Cell.str "b"]]⟩ = ["c"] := by
  decide

/-- The statistics dictionary returned by `validate_merge_keys` on success
(core.py lines 203-223). -/
structure ValidationReport where
  file1_total : Nat
  file1_unique : Nat
  file1_uniqueness : ℚ
  file2_total : Nat
  file2_unique : Nat
  file2_uniqueness : ℚ
  common_values : Nat
  match_ratio_file1 : ℚ
  match_ratio_file2 : ℚ
  warnings : List String
deriving DecidableEq

/-- Outcome of `validate_merge_keys`: either `{"valid": False, "error": e}`
or `{"valid": True, ...statistics...}`. -/
inductive ValidationResult
  | invalid (error : String)
  | valid (report : ValidationReport)
deriving DecidableEq

/-- The cleaned value list of one key column (core.py lines 187-192):
`astype(str).str.strip()`, then keep values that are neither `''` nor the
literal lowercase `'nan'`. -/
def cleanValues (d : Dataset) (key : String) : List String :=
  ((d.col key).map (fun v => pyStrip v.astype)).filter
    (fun s => decide (s ≠ "" ∧ s ≠ "nan"))

/-- `validate_merge_keys` (core.py lines 167-228).  The two dataframe slots
are passed explicitly (`self.df1`, `self.df2`). -/
def validate_merge_keys (df1 df2 : Option Dataset) (key1 key2 : String) :
    ValidationResult :=
  match df1, df2 with
  | none, _ => .invalid "Files not loaded"
  | some _, none => .invalid "Files not loaded"
  | some d1, some d2 =>
    if key1 ∉ d1.cols then
      .invalid ("Column " ++ key1 ++ " not found in first file")
    else if key2 ∉ d2.cols then
      .invalid ("Column " ++ key2 ++ " not found in second file")
    else
      let clean1 := cleanValues d1 key1
      let clean2 := cleanValues d2 key2
      let unique1 := clean1.dedup.length
      let unique2 := clean2.dedup.length
      let total1 := clean1.length
      let total2 := clean2.length
      let common := interCount (clean1.map pyUpper).dedup (clean2.map pyUpper).dedup
      let uniq1 : ℚ := if total1 > 0 then mkRat unique1 total1 else 0
      let uniq2 : ℚ := if total2 > 0 then mkRat unique2 total2 else 0
      let mr1 : ℚ := if unique1 > 0 then mkRat common unique1 else 0
      let mr2 : ℚ := if unique2 > 0 then mkRat common unique2 else 0
      let warnings : List String :=
        if uniq1 < mkRat 7 10 ∧ uniq2 < mkRat 7 10 then
          ["Both columns have low uniqueness - may not be good merge keys"]
        else if mr1 < mkRat 3 10 ∧ mr2 < mkRat 3 10 then
          ["Low overlap between files - check if columns are compatible"]
        else []
      .valid ⟨total1, unique1, uniq1, total2, unique2, uniq2, common, mr1, mr2, warnings⟩

/-- Key-column normalization of `perform_merge` (core.py lines 250-251):
`df[key] = df[key].astype(str).str.strip().str.replace('.0', '')`. -/
def normKeyCol (d : Dataset) (key : String) : Dataset :=
  match d.cols.findIdx? (· == key) with
  | some i =>
    let newRows :=
      d.rows.map
        (fun r => r.set i (Cell.str (normalizeMergeKey (r.getD i Cell.null).astype)))
    { d with rows := newRows }
  | none => d

/-- One pass of suffixing right-side columns that collide with a left-side
column name other than the merge key.  This is both the explicit conflict
loop at core.py lines 265-272 and the `suffixes=('', '_right')` rule that
`pd.merge` applies to the columns still overlapping at merge time. -/
def suffixPass (leftCols : List String) (key1 : String) (rcols : List String) :
    List String :=
  rcols.map (fun c => if c ∈ leftCols ∧ c ≠ key1 then c ++ "_right" else c)

/-- The right dataframe's column names after the explicit renames: the key
column renamed from `key2` to `key1` (core.py lines 261-263), then the
explicit conflict-rename pass (lines 265-272).  These are the labels the
pre-merge diagnostics loop (lines 276-282) iterates over. -/
def rightColsAfterRenames (leftCols : List String) (key1 key2 : String)
    (rcols : List String) : List String :=
  suffixPass leftCols key1 (rcols.map (fun c => if c = key2 then key1 else c))

/-- Final names of the right dataframe's columns at merge time: the
explicit renames, then the `pd.merge` suffix pass on any name still
colliding. -/
def mergedRightCols (leftCols : List String) (key1 key2 : String)
    (rcols : List String) : List String :=
  suffixPass leftCols key1 (rightColsAfterRenames leftCols key1 key2 rcols)

/-- `col.endswith('_right')` (model: the reversed character list starts
with the reversal of `"_right"`). -/
def endsWithRight (s : String) : Bool :=
  s.data.reverse.take 6 == "_right".data.reverse

/-- A duplicated non-key label among the columns: on such a frame the
pre-merge diagnostics loop (core.py lines 276-282) evaluates
`sample_right[col].tolist()` on a DataFrame and raises. -/
def hasDupNonKey (key1 : String) (cols : List String) : Bool :=
  cols.any (fun c => c != key1 && decide (2 ≤ cols.count c))

/-- Any duplicated label.  `pd.merge` raises when its suffix pass creates a
duplicate among the right-side labels (the check is per side only). -/
def hasDup (cols : List String) : Bool :=
  cols.any (fun c => decide (2 ≤ cols.count c))

/-- `right_only_cols` as built at core.py line 295: the result columns that
are not left columns or end with `"_right"`. -/
def right_only_cols (leftCols resultCols : List String) : List String :=
  resultCols.filter (fun c => decide (c ∉ leftCols) || endsWithRight c)

/-- The post-merge diagnostics loop (core.py lines 294-303) walks the first
five entries of `right_only_cols`; for a label duplicated in the result,
`self.merge_result[col]` selects a DataFrame, `.notna().sum()` is a Series,
and `if non_null > 0:` raises `ValueError` - after `self.merge_result` has
already been assigned at line 286. -/
def diagnosticsRaise (leftCols resultCols : List String) : Bool :=
  ((right_only_cols leftCols resultCols).take 5).any
    (fun c => decide (2 ≤ resultCols.count c))

/-- Row of nulls used to fill the right side of an unmatched left row
(width: right columns minus the key). -/
def nullFill (n : Nat) : List Cell := List.replicate n Cell.null

def leftJoinRows (ld rd : Dataset) (li ri : Nat) : List (List Cell) :=
  ld.rows.flatMap (fun lr =>
    match rd.rows.filter (fun rr => rr.getD ri Cell.null == lr.getD li Cell.null) with
    | [] => [lr ++ nullFill ((rd.cols.eraseIdx ri).length)]
    | ms => ms.map (fun rr => lr ++ rr.eraseIdx ri))

def rightJoinRows (ld rd : Dataset) (li ri : Nat) : List (List Cell) :=
  rd.rows.flatMap (fun rr =>
    match ld.rows.filter (fun lr => lr.getD li Cell.null == rr.getD ri Cell.null) with
    | [] => [(nullFill ld.cols.length).set li (rr.getD ri Cell.null) ++ rr.eraseIdx ri]
    | ms => ms.map (fun lr => lr ++ rr.eraseIdx ri))

def innerJoinRows (ld rd : Dataset) (li ri : Nat) : List (List Cell) :=
  ld.rows.flatMap (fun lr =>
    (rd.rows.filter (fun rr => rr.getD ri Cell.null == lr.getD li Cell.null)).map
      (fun rr => lr ++ rr.eraseIdx ri))

def outerJoinRows (ld rd : Dataset) (li ri : Nat) : List (List Cell) :=
  leftJoinRows ld rd li ri ++
    ((rd.rows.filter (fun rr =>
        (ld.rows.filter (fun lr => lr.getD li Cell.null == rr.getD ri Cell.null)).isEmpty)).map
      (fun rr => (nullFill ld.cols.length).set li (rr.getD ri Cell.null) ++ rr.eraseIdx ri))

/-- Row semantics of `pd.merge` per join type, given the key's index on
each side: `left` keeps every left row in order, one output row per
matching right row (null-filled when no match); `right` is the mirror (the
key cell taken from the right row); `inner` keeps only matching pairs;
`outer` is modelled as the left-join rows plus the unmatched right rows
(the source leaves `inner`/`outer` order unspecified).  An unsupported
`how` string makes `pd.merge` raise, which `perform_merge` catches:
modelled by `none`. -/
def joinRowsHow (how : String) (ld rd : Dataset) (li ri : Nat) :
    Option (List (List Cell)) :=
  match how with
  | "left" => some (leftJoinRows ld rd li ri)
  | "right" => some (rightJoinRows ld rd li ri)
  | "inner" => some (innerJoinRows ld rd li ri)
  | "outer" => some (outerJoinRows ld rd li ri)
  | _ => none

/-- `pd.merge(left, right, on=key, how=how)` where `right` already carries
its final column names and exactly one column named `key` on each side.
Output columns (all join types): all left columns, then the right columns
minus the key. -/
def joinOn (ld rd : Dataset) (key : String) (how : String) : Option Dataset :=
  match ld.cols.findIdx? (· == key), rd.cols.findIdx? (· == key) with
  | some li, some ri =>
    (joinRowsHow how ld rd li ri).map
      (fun rows => ⟨ld.cols ++ rd.cols.eraseIdx ri, rows⟩)
  | _, _ => none

/-- The engine's mutable state: the two loaded dataframes, the current merge
result and the last detected key list (file paths omitted; they carry no
logic). -/
structure EngineState where
  df1 : Option Dataset
  df2 : Option Dataset
  merge_result : Option Dataset
  detected_keys : List (String × String × ℚ)
deriving DecidableEq

/-- The freshly constructed engine (core.py lines 20-26). -/
def initEngine : EngineState := ⟨none, none, none, []⟩

/-- `load_file` (core.py lines 28-82).  Reading and decoding the file is
external I/O, abstracted as `parsed` (`none` = unreadable/unsupported, the
early-return paths).  An empty dataframe is rejected before anything is
stored; on success the column names are stripped and the dataframe is
stored in slot 1 or 2. -/
def load_file (st : EngineState) (parsed : Option Dataset) (file_number : Nat) :
    Bool × EngineState :=
  match parsed with
  | none => (false, st)
  | some df =>
    if df.rows.isEmpty ∨ df.cols.isEmpty then (false, st)
    else
      let df' : Dataset := ⟨df.cols.map pyStrip, df.rows⟩
      if file_number = 1 then (true, { st with df1 := some df' })
      else (true, { st with df2 := some df' })

/-- `perform_merge` (core.py lines 230-313).  Failure paths before the
join commits return `False` with the state untouched: missing dataframe
(lines 240-242), a missing key column (the `KeyError` raised at lines
250-251 inside the `try`), a duplicated non-key label on the right frame
(the pre-merge diagnostics loop at lines 276-282 raises), duplicate
key-named columns or suffix-created right-side duplicates or an invalid
`how` (`pd.merge` raises).  On join success `self.merge_result` is
assigned at line 286; the post-merge diagnostics loop at lines 294-303
still runs inside the same `try` and can raise on a duplicated result
label (a cross-side `_right` collision that pandas' per-side suffix check
does not catch) - then `perform_merge` returns `False` although the
stored result has already been replaced. -/
def perform_merge (st : EngineState) (key1 key2 how : String) :
    Bool × EngineState :=
  match st.df1, st.df2 with
  | some A, some B =>
    if key1 ∈ A.cols ∧ key2 ∈ B.cols then
      if hasDupNonKey key1 (rightColsAfterRenames A.cols key1 key2 B.cols) then
        (false, st)
      else if A.cols.count key1 = 1 ∧
          (rightColsAfterRenames A.cols key1 key2 B.cols).count key1 = 1 then
        if hasDup (mergedRightCols A.cols key1 key2 B.cols) then (false, st)
        else
          match joinOn (normKeyCol A key1)
              ⟨mergedRightCols A.cols key1 key2 B.cols, (normKeyCol B key2).rows⟩
              key1 how with
          | some m =>
            if diagnosticsRaise A.cols m.cols then
              (false, { st with merge_result := some m })
            else (true, { st with merge_result := some m })
          | none => (false, st)
      else (false, st)
    else (false, st)
  | _, _ => (false, st)

/-- One public engine operation, for the reachable-state invariant. -/
inductive EngineOp
  | load (parsed : Option Dataset) (file_number : Nat)
  | detect (nameSim : String → String → ℚ) (min_match_ratio : ℚ)
  | validate (key1 key2 : String)
  | merge (key1 key2 how : String)
  | save
  | preview

/-- State transition of one operation.  `detect_merge_keys` stores its
result in `detected_keys` only when both dataframes are loaded (the early
return at core.py lines 92-94 leaves the state untouched);
`validate_merge_keys`, `save_result` and `get_preview_data` never write
engine state. -/
def applyOp (st : EngineState) (op : EngineOp) : EngineState :=
  match op with
  | .load p n => (load_file st p n).2
  | .detect f r =>
    match st.df1, st.df2 with
    | some d1, some d2 => { st with detected_keys := detectedTriples f d1 d2 r }
    | _, _ => st
  | .validate _ _ => st
  | .merge k1 k2 how => (perform_merge st k1 k2 how).2
  | .save => st
  | .preview => st

/-- The states reachable from a fresh engine by a sequence of operations. -/
def runOps (ops : List EngineOp) : EngineState := ops.foldl applyOp initEngine

/-- Following the spec sentence behind claim C2 (a second definition, for
comparison with the source-derived `candidateCols`): per-column uniqueness
as "(count of distinct normalized non-absent tokens) / (row count)",
retained iff strictly above 0.7. -/
def specUniquenessOver07 (d : Dataset) (c : String) : Prop :=
  mkRat (tokenSet (d.col c)).length d.rows.length > mkRat 7 10

instance (d : Dataset) (c : String) : Decidable (specUniquenessOver07 d c) := by
  unfold specUniquenessOver07; infer_instance

/-! ## Helper lemmas -/

theorem toUpper_toNat_of_lower (c : Char) (h : 97 ≤ c.toNat ∧ c.toNat ≤ 122) :
    c.toUpper.toNat = c.toNat - 32 := by
  unfold Char.toUpper
  rw [if_pos ⟨h.1, h.2⟩]
  rw [Char.ofNat, dif_pos (Or.inl (by omega))]
  rfl

theorem toUpper_eq_self_of_not_lower (c : Char)
    (h : ¬(97 ≤ c.toNat ∧ c.toNat ≤ 122)) : c.toUpper = c := by
  unfold Char.toUpper
  exact if_neg (fun hc => h ⟨hc.1, hc.2⟩)

theorem char_toUpper_idem (c : Char) : c.toUpper.toUpper = c.toUpper := by
  by_cases h : 97 ≤ c.toNat ∧ c.toNat ≤ 122
  · apply toUpper_eq_self_of_not_lower
    rw [toUpper_toNat_of_lower c h]
    omega
  · have he := toUpper_eq_self_of_not_lower c h
    rw [he, he]

theorem pyUpper_pyUpper (s : String) : pyUpper (pyUpper s) = pyUpper s := by
  unfold pyUpper
  congr 1
  show (s.data.map Char.toUpper).map Char.toUpper = s.data.map Char.toUpper
  rw [List.map_map]
  exact List.map_congr_left (fun a _ => char_toUpper_idem a)

/-! ## Claim C4 -/

/-- Claim C4 counterexample: the Normalizer is not idempotent as claimed.
On the input `"..00"` one removal pass of the substring `".0"` creates a
new `".0"` occurrence: `normalize("..00") = ".0"` but
`normalize(".0") = ""`. -/
theorem normalizeToken_not_idempotent :
    normalizeToken (normalizeToken "..00") ≠ normalizeToken "..00" := by decide

/-- Claim C4 (amended): the Normalizer is idempotent on every input whose
normalized form is stable under a further strip and `".0"`-removal pass
(in particular, whenever `normalize(x)` contains no `".0"` occurrence and
no boundary whitespace); a second application can differ only because
`".0"`-removal can create a new `".0"` occurrence or expose boundary
whitespace. -/
theorem normalizeToken_idempotent_of_stable (x : String)
    (h1 : pyStrip (normalizeToken x) = normalizeToken x)
    (h2 : pyRemoveDot0 (normalizeToken x) = normalizeToken x) :
    normalizeToken (normalizeToken x) = normalizeToken x :=
  calc normalizeToken (normalizeToken x)
      = pyUpper (pyRemoveDot0 (pyStrip (normalizeToken x))) := rfl
    _ = pyUpper (pyRemoveDot0 (normalizeToken x)) := by rw [h1]
    _ = pyUpper (normalizeToken x) := by rw [h2]
    _ = normalizeToken x := pyUpper_pyUpper (pyRemoveDot0 (pyStrip x))

/-- Witness for the amended claim C4 at the concrete input `" a1.0 "`. -/
theorem normalizeToken_idempotent_of_stable_witness :
    pyStrip (normalizeToken " a1.0 ") = normalizeToken " a1.0 " ∧
    pyRemoveDot0 (normalizeToken " a1.0 ") = normalizeToken " a1.0 " ∧
    normalizeToken (normalizeToken " a1.0 ") = normalizeToken " a1.0 " :=
  ⟨by decide, by decide,
    normalizeToken_idempotent_of_stable " a1.0 " (by decide) (by decide)⟩

/-! ## Claim C2 -/

/-- Claim C2 counterexample: the uniqueness filter of `detect_merge_keys`
uses pandas `nunique` on the raw values, not on normalized tokens.  On the
single-column dataset with rows `"a"`, `"A"`, `"b"` the raw distinct count
is 3 (ratio 1 > 0.7, column admitted), while the spec's ratio of distinct
normalized non-absent tokens is 2/3 ≤ 0.7, under which the column would
have to be excluded. -/
theorem candidateCols_ignores_normalization :
    "c" ∈ candidateCols ⟨["c"], [[Cell.str "a"], [Cell.str "A"], [Cell.str "b"]]⟩ ∧
    ¬ specUniquenessOver07 ⟨["c"], [[Cell.str "a"], [Cell.str "A"], [Cell.str "b"]]⟩ "c" := by
  constructor
  · decide
  · unfold specUniquenessOver07
    decide

/-- Claim C2 (amended): `detect_merge_keys` admits a column as a candidate
key column iff the count of distinct raw non-null values (pandas
`nunique`, no normalization) over the row count is strictly greater than
0.7, and only such columns enter the pairwise search. -/
theorem candidateCols_iff_raw_uniqueness (d1 d2 : Dataset)
    (f : String → String → ℚ) (m : ℚ) :
    (∀ c ∈ d1.cols,
      (c ∈ candidateCols d1 ↔ mkRat (nunique (d1.col c)) d1.rows.length > mkRat 7 10)) ∧
    (∀ cand ∈ detect_merge_keys f d1 d2 m,
      cand.col1 ∈ candidateCols d1 ∧ cand.col2 ∈ candidateCols d2) := by
  constructor
  · intro c hc
    unfold candidateCols uniqOver07
    rw [List.mem_filter]
    simp [hc]
  · intro cand hc
    rw [detect_merge_keys, List.mem_insertionSort, rawCandidates,
      List.mem_flatMap] at hc
    obtain ⟨c1, hc1, hc⟩ := hc
    rw [List.mem_filterMap] at hc
    obtain ⟨c2, hc2, he⟩ := hc
    split_ifs at he with hemp hscore
    cases he
    exact ⟨hc1, hc2⟩

/-! ## Claim C1 -/

/-- Claim C1: every candidate returned by `detect_merge_keys` has
`combined_score ≥ min_match_ratio` (the keep-test at core.py line 151), and
the returned sequence is sorted non-increasingly by the lexicographic pair
(combined score, match count) - `candGe` is exactly that non-increasing
order, score primary and match count the tie-break (the sort at core.py
line 159). -/
theorem detect_merge_keys_threshold_sorted (f : String → String → ℚ)
    (d1 d2 : Dataset) (m : ℚ) :
    (∀ cand ∈ detect_merge_keys f d1 d2 m, m ≤ cand.score) ∧
    (detect_merge_keys f d1 d2 m).Pairwise candGe := by
  constructor
  · intro cand hc
    rw [detect_merge_keys, List.mem_insertionSort, rawCandidates,
      List.mem_flatMap] at hc
    obtain ⟨c1, hc1, hc⟩ := hc
    rw [List.mem_filterMap] at hc
    obtain ⟨c2, hc2, he⟩ := hc
    split_ifs at he with hemp hscore
    cases he
    exact hscore
  · exact List.sorted_insertionSort candGe _

/-! ## Claim C9 -/

theorem string_append_ne_empty_right (s t : String) (ht : t.data ≠ []) :
    s ++ t ≠ "" := by
  intro he
  apply ht
  have hd := congrArg String.data he
  rw [String.data_append] at hd
  exact List.append_eq_nil.mp hd |>.2

/-- Claim C9: whenever a dataframe is missing, or a key column is absent
from its dataframe, `validate_merge_keys` returns the failure outcome with
a nonempty human-readable reason string (the explicit precondition checks
at core.py lines 176-183); being a total Lean function, the model never
raises. -/
theorem validate_merge_keys_precondition_failure (df1 df2 : Option Dataset)
    (k1 k2 : String)
    (h : df1 = none ∨ df2 = none ∨ (∃ d1, df1 = some d1 ∧ k1 ∉ d1.cols) ∨
         (∃ d2, df2 = some d2 ∧ k2 ∉ d2.cols)) :
    ∃ e, validate_merge_keys df1 df2 k1 k2 = .invalid e ∧ e ≠ "" := by
  rcases h with h | h | ⟨d1, h1, hk1⟩ | ⟨d2, h2, hk2⟩
  · subst h
    exact ⟨"Files not loaded", rfl, by decide⟩
  · subst h
    cases df1 with
    | none => exact ⟨"Files not loaded", rfl, by decide⟩
    | some d1 => exact ⟨"Files not loaded", rfl, by decide⟩
  · subst h1
    cases df2 with
    | none => exact ⟨"Files not loaded", rfl, by decide⟩
    | some d2 =>
      refine ⟨"Column " ++ k1 ++ " not found in first file", ?_, ?_⟩
      · simp only [validate_merge_keys]
        rw [if_pos hk1]
      · exact string_append_ne_empty_right _ _ (by decide)
  · subst h2
    cases df1 with
    | none => exact ⟨"Files not loaded", rfl, by decide⟩
    | some d1 =>
      by_cases hk1 : k1 ∈ d1.cols
      · refine ⟨"Column " ++ k2 ++ " not found in second file", ?_, ?_⟩
        · simp only [validate_merge_keys]
          rw [if_neg (not_not_intro hk1), if_pos hk2]
        · exact string_append_ne_empty_right _ _ (by decide)
      · refine ⟨"Column " ++ k1 ++ " not found in first file", ?_, ?_⟩
        · simp only [validate_merge_keys]
          rw [if_pos hk1]
        · exact string_append_ne_empty_right _ _ (by decide)

/-- Witness for claim C9: a concrete call with no dataframes loaded. -/
theorem validate_merge_keys_precondition_failure_witness :
    ∃ e, validate_merge_keys none none "a" "b" = .invalid e ∧ e ≠ "" :=
  validate_merge_keys_precondition_failure none none "a" "b" (Or.inl rfl)

/-! ## Claim C3 -/

/-- Claim C3 (code bug): the claim - a failed merge leaves any previously
stored MergeResult untouched - states the spec's explicit intent (spec 4.5
step 6 and section 7), but the code violates it.  `self.merge_result` is
assigned at core.py line 286 before the diagnostics loop at lines 294-303,
which still runs inside the same `try`.  With left columns
`[id, x, x_right, x_right_right]` and right columns `[id, x]` (keys
`id`/`id`), the conflict loop renames the right `x` to `x_right`, the
`pd.merge` suffix pass renames it again to `x_right_right` (its
duplicate-suffix check is per side only), and the result carries two
`x_right_right` labels; the diagnostics then evaluate
`if non_null > 0:` on a Series and raise `ValueError`, so `perform_merge`
returns `False` with the previously stored MergeResult already replaced.
`df1`/`df2` are still never altered (see `perform_merge_preserves_dfs`). -/
theorem perform_merge_failure_replaces_result :
    (perform_merge
        ⟨some ⟨["id", "x", "x_right", "x_right_right"],
            [[Cell.str "1", Cell.str "a", Cell.str "b", Cell.str "c"]]⟩,
         some ⟨["id", "x"], [[Cell.str "1", Cell.str "r"]]⟩,
         some ⟨["old"], [[Cell.str "o"]]⟩, []⟩
        "id" "id" "left").1 = false ∧
    (perform_merge
        ⟨some ⟨["id", "x", "x_right", "x_right_right"],
            [[Cell.str "1", Cell.str "a", Cell.str "b", Cell.str "c"]]⟩,
         some ⟨["id", "x"], [[Cell.str "1", Cell.str "r"]]⟩,
         some ⟨["old"], [[Cell.str "o"]]⟩, []⟩
        "id" "id" "left").2.merge_result ≠ some ⟨["old"], [[Cell.str "o"]]⟩ := by
  decide

/-! ## Claim C10 -/

theorem perform_merge_preserves_dfs (st : EngineState) (k1 k2 how : String) :
    (perform_merge st k1 k2 how).2.df1 = st.df1 ∧
    (perform_merge st k1 k2 how).2.df2 = st.df2 := by
  obtain ⟨df1, df2, mr, dk⟩ := st
  cases df1 with
  | none => exact ⟨rfl, rfl⟩
  | some A =>
    cases df2 with
    | none => exact ⟨rfl, rfl⟩
    | some B =>
      simp only [perform_merge]
      split_ifs with hkeys hdupR hcnt hdup
      · exact ⟨rfl, rfl⟩
      · exact ⟨rfl, rfl⟩
      · cases joinOn (normKeyCol A k1)
          ⟨mergedRightCols A.cols k1 k2 B.cols, (normKeyCol B k2).rows⟩ k1 how with
        | none => exact ⟨rfl, rfl⟩
        | some m =>
          constructor
          · show (if diagnosticsRaise A.cols m.cols then
                (false,
                  ({ df1 := some A, df2 := some B, merge_result := some m,
                     detected_keys := dk } : EngineState))
              else
                (true,
                  { df1 := some A, df2 := some B, merge_result := some m,
                    detected_keys := dk })).2.df1 = some A
            split_ifs <;> rfl
          · show (if diagnosticsRaise A.cols m.cols then
                (false,
                  ({ df1 := some A, df2 := some B, merge_result := some m,
                     detected_keys := dk } : EngineState))
              else
                (true,
                  { df1 := some A, df2 := some B, merge_result := some m,
                    detected_keys := dk })).2.df2 = some B
            split_ifs <;> rfl
      · exact ⟨rfl, rfl⟩
      · exact ⟨rfl, rfl⟩

theorem applyOp_preserves_nonempty (st : EngineState) (op : EngineOp)
    (h1 : ∀ d, st.df1 = some d → d.rows ≠ [])
    (h2 : ∀ d, st.df2 = some d → d.rows ≠ []) :
    (∀ d, (applyOp st op).df1 = some d → d.rows ≠ []) ∧
    (∀ d, (applyOp st op).df2 = some d → d.rows ≠ []) := by
  obtain ⟨df1, df2, mr, dk⟩ := st
  cases op with
  | load parsed n =>
    simp only [applyOp]
    cases parsed with
    | none => exact ⟨h1, h2⟩
    | some df =>
      simp only [load_file]
      split_ifs with hemp hn
      · exact ⟨h1, h2⟩
      · refine ⟨?_, h2⟩
        intro d hd
        cases hd
        intro hnil
        exact hemp (Or.inl (by simp [show df.rows = [] from hnil]))
      · refine ⟨h1, ?_⟩
        intro d hd
        cases hd
        intro hnil
        exact hemp (Or.inl (by simp [show df.rows = [] from hnil]))
  | detect f r =>
    simp only [applyOp]
    cases df1 with
    | none => exact ⟨h1, h2⟩
    | some d1 =>
      cases df2 with
      | none => exact ⟨h1, h2⟩
      | some d2 => exact ⟨h1, h2⟩
  | validate k1 k2 => exact ⟨h1, h2⟩
  | merge k1 k2 how =>
    obtain ⟨e1, e2⟩ := perform_merge_preserves_dfs ⟨df1, df2, mr, dk⟩ k1 k2 how
    simp only [applyOp]
    constructor
    · intro d hd
      rw [e1] at hd
      exact h1 d hd
    · intro d hd
      rw [e2] at hd
      exact h2 d hd
  | save => exact ⟨h1, h2⟩
  | preview => exact ⟨h1, h2⟩

/-- Claim C10: in every reachable engine state, a loaded dataset is
non-empty - `load_file` rejects an empty dataframe before storing anything
(core.py lines 60-63) and no other operation writes `df1`/`df2` - so the
row count dividing each per-column uniqueness ratio in `detect_merge_keys`
is strictly positive, and those divisions never divide by zero. -/
theorem reachable_loaded_nonempty (ops : List EngineOp) (d : Dataset) :
    ((runOps ops).df1 = some d → 0 < d.rows.length) ∧
    ((runOps ops).df2 = some d → 0 < d.rows.length) := by
  have key : ∀ (l : List EngineOp) (st : EngineState),
      ((∀ e, st.df1 = some e → e.rows ≠ []) ∧ (∀ e, st.df2 = some e → e.rows ≠ [])) →
      ((∀ e, (l.foldl applyOp st).df1 = some e → e.rows ≠ []) ∧
       (∀ e, (l.foldl applyOp st).df2 = some e → e.rows ≠ [])) := by
    intro l
    induction l with
    | nil => intro st h; exact h
    | cons op rest ih =>
      intro st h
      rw [List.foldl_cons]
      exact ih _ (applyOp_preserves_nonempty st op h.1 h.2)
  have hinit : (∀ e, initEngine.df1 = some e → e.rows ≠ []) ∧
      (∀ e, initEngine.df2 = some e → e.rows ≠ []) := by
    constructor <;> intro e he <;> cases he
  obtain ⟨g1, g2⟩ := key ops initEngine hinit
  constructor
  · intro hd
    exact List.length_pos.mpr (g1 d hd)
  · intro hd
    exact List.length_pos.mpr (g2 d hd)

/-! ## Claim C5 -/

theorem interCount_self (s : List String) : interCount s s = s.length := by
  unfold interCount
  rw [List.filter_eq_self.mpr]
  intro a ha
  exact decide_eq_true ha

theorem dedup_map_length {α β : Type} [DecidableEq α] [DecidableEq β]
    (l : List α) (f : α → β) (h : (l.dedup.map f).Nodup) :
    (l.map f).dedup.length = l.dedup.length := by
  have hfs : (l.map f).toFinset = (l.dedup.map f).toFinset := by
    ext b
    simp [List.mem_map, List.mem_dedup]
  have hperm := List.toFinset_eq_iff_perm_dedup.mp hfs
  rw [hperm.length_eq, List.dedup_eq_self.mpr h, List.length_map]

theorem mkRat_self_of_pos (n : Nat) (h : 0 < n) : mkRat (n : Int) n = 1 := by
  have hn : (n : ℚ) ≠ 0 := Nat.cast_ne_zero.mpr (Nat.pos_iff_ne_zero.mp h)
  rw [Rat.mkRat_eq_div]
  push_cast
  exact div_self hn

/-- Claim C5 counterexample: on a self-merge of the single-column dataset
with rows `"a"`, `"A"` the validator counts 2 distinct values per side
(case-sensitive `nunique` on the trimmed values) but only 1 common value
(the intersection is taken on the upper-cased sets), so
`match_ratio_file1 = 1/2 ≠ 1.0` and `common_values = 1 ≠ 2 = unique1`. -/
theorem validate_self_merge_counterexample :
    validate_merge_keys (some ⟨["c"], [[Cell.str "a"], [Cell.str "A"]]⟩)
      (some ⟨["c"], [[Cell.str "a"], [Cell.str "A"]]⟩) "c" "c" =
      .valid ⟨2, 2, 1, 2, 2, 1, 1, mkRat 1 2, mkRat 1 2, []⟩ ∧
    (mkRat 1 2 : ℚ) ≠ 1 ∧ (1 : Nat) ≠ 2 := by decide

/-- Claim C5 (amended): `validate_merge_keys` on a self-merge yields
`match_ratio_file1 = match_ratio_file2 = 1.0` and
`common_values = unique1 = unique2` provided the column keeps at least one
cleaned value and no two distinct kept values differ only by letter case
(the validator's distinct counts are case-sensitive while its intersection
is computed on upper-cased values, so case collisions break the claimed
identities). -/
theorem validate_self_merge (D : Dataset) (c : String)
    (hc : c ∈ D.cols)
    (hne : cleanValues D c ≠ [])
    (hcase : ((cleanValues D c).dedup.map pyUpper).Nodup) :
    match validate_merge_keys (some D) (some D) c c with
    | .valid r => r.match_ratio_file1 = 1 ∧ r.match_ratio_file2 = 1 ∧
        r.common_values = r.file1_unique ∧ r.file1_unique = r.file2_unique
    | .invalid _ => False := by
  have hcommon :
      interCount ((cleanValues D c).map pyUpper).dedup
        ((cleanValues D c).map pyUpper).dedup = (cleanValues D c).dedup.length := by
    rw [interCount_self]
    exact dedup_map_length _ _ hcase
  have hu : 0 < (cleanValues D c).dedup.length := by
    cases hd : (cleanValues D c).dedup with
    | nil => exact absurd ((List.dedup_eq_nil _).mp hd) hne
    | cons a t => simp
  simp only [validate_merge_keys]
  rw [if_neg (not_not_intro hc), if_neg (not_not_intro hc)]
  refine ⟨?_, ?_, ?_, rfl⟩
  · show (if 0 < (cleanValues D c).dedup.length then
        mkRat (interCount ((cleanValues D c).map pyUpper).dedup
          ((cleanValues D c).map pyUpper).dedup) (cleanValues D c).dedup.length
      else 0) = 1
    rw [if_pos hu, hcommon]
    exact mkRat_self_of_pos _ hu
  · show (if 0 < (cleanValues D c).dedup.length then
        mkRat (interCount ((cleanValues D c).map pyUpper).dedup
          ((cleanValues D c).map pyUpper).dedup) (cleanValues D c).dedup.length
      else 0) = 1
    rw [if_pos hu, hcommon]
    exact mkRat_self_of_pos _ hu
  · exact hcommon

/-- Witness for the amended claim C5 at a concrete two-row dataset. -/
theorem validate_self_merge_witness :
    ("c" ∈ (⟨["c"], [[Cell.str "1"], [Cell.str "2"]]⟩ : Dataset).cols) ∧
    cleanValues ⟨["c"], [[Cell.str "1"], [Cell.str "2"]]⟩ "c" ≠ [] ∧
    ((cleanValues ⟨["c"], [[Cell.str "1"], [Cell.str "2"]]⟩ "c").dedup.map pyUpper).Nodup ∧
    (match validate_merge_keys (some ⟨["c"], [[Cell.str "1"], [Cell.str "2"]]⟩)
        (some ⟨["c"], [[Cell.str "1"], [Cell.str "2"]]⟩) "c" "c" with
      | .valid r => r.match_ratio_file1 = 1 ∧ r.match_ratio_file2 = 1 ∧
          r.common_values = r.file1_unique ∧ r.file1_unique = r.file2_unique
      | .invalid _ => False) :=
  ⟨by decide, by decide, by decide,
    validate_self_merge _ _ (by decide) (by decide) (by decide)⟩

/-! ## Claim C6 -/

theorem normKeyCol_cols (d : Dataset) (k : String) :
    (normKeyCol d k).cols = d.cols := by
  unfold normKeyCol
  cases d.cols.findIdx? (· == k) with
  | none => rfl
  | some i => rfl

theorem normKeyCol_rows_length (d : Dataset) (k : String) :
    (normKeyCol d k).rows.length = d.rows.length := by
  unfold normKeyCol
  cases d.cols.findIdx? (· == k) with
  | none => rfl
  | some i => exact List.length_map _ _

theorem col_of_findIdx (d : Dataset) (c : String) (i : Nat)
    (h : d.cols.findIdx? (· == c) = some i) :
    d.col c = d.rows.map (fun r => r.getD i Cell.null) := by
  unfold Dataset.col
  rw [h]

theorem findIdx_eq_of_getElem_count_one {l : List String} {k : String} :
    ∀ {i : Nat}, l[i]? = some k → l.count k = 1 →
      l.findIdx? (· == k) = some i := by
  induction l with
  | nil => intro i hi; simp at hi
  | cons c t ih =>
    intro i hk hcnt
    cases i with
    | zero =>
      simp only [List.getElem?_cons_zero, Option.some.injEq] at hk
      subst hk
      simp [List.findIdx?_cons]
    | succ j =>
      simp only [List.getElem?_cons_succ] at hk
      have hmem : k ∈ t := by
        obtain ⟨hj, hv⟩ := List.getElem?_eq_some.mp hk
        exact hv ▸ List.getElem_mem hj
      have hcne : ¬(c == k) := by
        intro hce
        rw [List.count_cons] at hcnt
        have hpos : 0 < t.count k := List.count_pos_iff.mpr hmem
        rw [if_pos hce] at hcnt
        omega
      have hcnt' : t.count k = 1 := by
        rw [List.count_cons, if_neg hcne] at hcnt
        omega
      rw [List.findIdx?_cons, if_neg hcne, List.findIdx?_start_succ,
        ih hk hcnt']
      rfl

theorem filter_map_nodup_le_one {α β : Type} [DecidableEq β] {l : List α}
    {f : α → β} (h : (l.map f).Nodup) (v : β) :
    (l.filter (fun x => f x == v)).length ≤ 1 := by
  induction l with
  | nil => simp
  | cons a t ih =>
    rw [List.map_cons, List.nodup_cons] at h
    rw [List.filter_cons]
    by_cases hv : (f a == v) = true
    · rw [if_pos hv]
      have hnil : t.filter (fun x => f x == v) = [] := by
        rw [List.filter_eq_nil_iff]
        intro x hx hfx
        apply h.1
        rw [List.mem_map]
        exact ⟨x, hx, by
          have h1 : f x = v := by simpa using hfx
          have h2 : f a = v := by simpa using hv
          rw [h1, h2]⟩
      rw [hnil]
      simp
    · rw [if_neg hv]
      exact Nat.le_trans (ih h.2) (by omega)

theorem flatMap_length_of_one {α β : Type} {l : List α} {g : α → List β}
    (h : ∀ x ∈ l, (g x).length = 1) : (l.flatMap g).length = l.length := by
  induction l with
  | nil => rfl
  | cons a t ih =>
    rw [List.flatMap_cons, List.length_append, ih (fun x hx => h x (List.mem_cons_of_mem a hx)),
      h a (List.mem_cons_self a t), List.length_cons]
    omega

/-- Claim C6: a merge with `how = "left"` that returns the success outcome
stores a result with exactly `len(datasetA)` rows, regardless of how many
left keys find a match, provided the right dataset's key column is unique
after the executor's normalization (with duplicate normalized right keys
pandas duplicates the matching left rows, so uniqueness of the right key
is the "dataset with a unique key" premise of the claim).  The conclusion
is conditional on success, as the claim's "the successful result" reads:
the merge can fail for unrelated reasons (missing or duplicated columns,
or the post-join diagnostics raising - see claim C3). -/
theorem perform_merge_left_row_count (st : EngineState) (A B : Dataset)
    (k1 k2 : String)
    (h1 : st.df1 = some A) (h2 : st.df2 = some B)
    (hnd : ((normKeyCol B k2).col k2).Nodup)
    (hsucc : (perform_merge st k1 k2 "left").1 = true) :
    ∀ M, (perform_merge st k1 k2 "left").2.merge_result = some M →
      M.rows.length = A.rows.length := by
  obtain ⟨df1, df2, mr, dk⟩ := st
  simp only at h1 h2
  subst h1
  subst h2
  simp only [perform_merge] at hsucc ⊢
  split_ifs at hsucc ⊢ with hkeys hdupR hcnt hdup
  obtain ⟨hk1, hk2⟩ := hkeys
  -- index of the key in the left columns
  obtain ⟨li, hfl⟩ : ∃ li, A.cols.findIdx? (· == k1) = some li := by
    have hs : (A.cols.findIdx? (· == k1)).isSome := by
      rw [List.findIdx?_isSome, List.any_eq_true]
      exact ⟨k1, hk1, by simp⟩
    exact Option.isSome_iff_exists.mp hs
  -- index of the key in the right columns
  obtain ⟨i2, hfi2⟩ : ∃ i2, B.cols.findIdx? (· == k2) = some i2 := by
    have hs : (B.cols.findIdx? (· == k2)).isSome := by
      rw [List.findIdx?_isSome, List.any_eq_true]
      exact ⟨k2, hk2, by simp⟩
    exact Option.isSome_iff_exists.mp hs
  obtain ⟨hi2lt, hi2val, _⟩ := List.findIdx?_eq_some_iff_getElem.mp hfi2
  have hi2v : B.cols[i2] = k2 := by simpa using hi2val
  -- the merged right columns are a map over the right columns
  have hrc : mergedRightCols A.cols k1 k2 B.cols =
      B.cols.map (fun c =>
        (fun c => if c ∈ A.cols ∧ c ≠ k1 then c ++ "_right" else c)
          ((fun c => if c ∈ A.cols ∧ c ≠ k1 then c ++ "_right" else c)
            (if c = k2 then k1 else c))) := by
    unfold mergedRightCols rightColsAfterRenames suffixPass
    rw [List.map_map, List.map_map]
    rfl
  have hval : (mergedRightCols A.cols k1 k2 B.cols)[i2]? = some k1 := by
    rw [hrc, List.getElem?_map, List.getElem?_eq_getElem hi2lt]
    simp only [Option.map_some']
    rw [hi2v]
    have g1 : (if k1 ∈ A.cols ∧ k1 ≠ k1 then k1 ++ "_right" else k1) = k1 :=
      if_neg (fun h => h.2 rfl)
    rw [if_pos rfl, g1, g1]
  -- the merged right columns carry the key exactly once (no duplicate
  -- labels at all, else pd.merge would have raised - hypothesis hdup)
  have hmem : k1 ∈ mergedRightCols A.cols k1 k2 B.cols := by
    obtain ⟨hlt, hv⟩ := List.getElem?_eq_some.mp hval
    have hg := List.getElem_mem hlt
    rw [hv] at hg
    exact hg
  have hcntR : (mergedRightCols A.cols k1 k2 B.cols).count k1 = 1 := by
    have hlt2 : (mergedRightCols A.cols k1 k2 B.cols).count k1 < 2 := by
      by_contra hge
      apply hdup
      unfold hasDup
      rw [List.any_eq_true]
      exact ⟨k1, hmem, by simp; omega⟩
    have hpos := List.count_pos_iff.mpr hmem
    omega
  have hfr : (mergedRightCols A.cols k1 k2 B.cols).findIdx? (· == k1) = some i2 :=
    findIdx_eq_of_getElem_count_one hval hcntR
  -- nodup of the normalized right key values, as a map over the rows
  have hcol : (normKeyCol B k2).col k2 =
      (normKeyCol B k2).rows.map (fun r => r.getD i2 Cell.null) :=
    col_of_findIdx _ _ i2 (by rw [normKeyCol_cols]; exact hfi2)
  rw [hcol] at hnd
  -- the left join returns one output row per left row
  have hlen : ∀ M,
      joinOn (normKeyCol A k1)
        ⟨mergedRightCols A.cols k1 k2 B.cols, (normKeyCol B k2).rows⟩ k1 "left" =
        some M →
      M.rows.length = A.rows.length := by
    intro M hM
    unfold joinOn at hM
    rw [normKeyCol_cols] at hM
    rw [hfl, hfr] at hM
    simp only [joinRowsHow, Option.map_some', Option.some.injEq] at hM
    have hrows : M.rows = leftJoinRows (normKeyCol A k1)
        ⟨mergedRightCols A.cols k1 k2 B.cols, (normKeyCol B k2).rows⟩ li i2 := by
      rw [← hM]
    rw [hrows]
    unfold leftJoinRows
    rw [flatMap_length_of_one, normKeyCol_rows_length]
    intro lr _
    have hle := filter_map_nodup_le_one hnd (lr.getD li Cell.null)
    cases hms : (normKeyCol B k2).rows.filter
        (fun rr => rr.getD i2 Cell.null == lr.getD li Cell.null) with
    | nil => rfl
    | cons m t =>
      rw [hms] at hle
      rw [List.length_map, List.length_cons]
      rw [List.length_cons] at hle
      omega
  -- reduce the stored result to the join output
  cases hj : joinOn (normKeyCol A k1)
      ⟨mergedRightCols A.cols k1 k2 B.cols, (normKeyCol B k2).rows⟩ k1 "left" with
  | none =>
    rw [hj] at hsucc
    simp at hsucc
  | some m =>
    intro M hM
    have hM' : (if diagnosticsRaise A.cols m.cols then
          (false,
            ({ df1 := some A, df2 := some B, merge_result := some m,
               detected_keys := dk } : EngineState))
        else
          (true,
            { df1 := some A, df2 := some B, merge_result := some m,
              detected_keys := dk })).2.merge_result = some M := hM
    have hmM : m = M := by
      split_ifs at hM' <;> simpa using hM'
    subst hmM
    exact hlen m hj

/-- Witness for claim C6 at concrete one-row datasets with key `"id"`. -/
theorem perform_merge_left_row_count_witness :
    (perform_merge
        ⟨some ⟨["id", "v"], [[Cell.str "1", Cell.str "x"]]⟩,
         some ⟨["id", "w"], [[Cell.str "1", Cell.str "y"]]⟩, none, []⟩
        "id" "id" "left").1 = true ∧
    ∀ M, (perform_merge
        ⟨some ⟨["id", "v"], [[Cell.str "1", Cell.str "x"]]⟩,
         some ⟨["id", "w"], [[Cell.str "1", Cell.str "y"]]⟩, none, []⟩
        "id" "id" "left").2.merge_result = some M → M.rows.length = 1 :=
  ⟨by decide,
    perform_merge_left_row_count _
      ⟨["id", "v"], [[Cell.str "1", Cell.str "x"]]⟩
      ⟨["id", "w"], [[Cell.str "1", Cell.str "y"]]⟩ "id" "id" rfl rfl
      (by decide) (by decide)⟩

/-! ## Claim C7 -/

theorem mem_eraseIdx_of_ne {α : Type} {a k : α} : ∀ {l : List α} {i : Nat},
    a ∈ l → l[i]? = some k → a ≠ k → a ∈ l.eraseIdx i := by
  intro l
  induction l with
  | nil => intro i ha; simp at ha
  | cons b t ih =>
    intro i ha hi hne
    cases i with
    | zero =>
      simp only [List.getElem?_cons_zero, Option.some.injEq] at hi
      subst hi
      rw [List.eraseIdx_cons_zero]
      rcases List.mem_cons.mp ha with hab | hat
      · exact absurd hab hne
      · exact hat
    | succ j =>
      simp only [List.getElem?_cons_succ] at hi
      rw [List.eraseIdx_cons_succ]
      rcases List.mem_cons.mp ha with hab | hat
      · exact hab ▸ List.mem_cons_self b _
      · exact List.mem_cons_of_mem b (ih hat hi hne)

/-- Claim C7 counterexample: merging two datasets that share the non-key
column `"status"` does not always put the right dataset's values in a
column named `"status_right"`.  When the left dataset already has a column
named `"status_right"`, the explicit conflict rename turns the right
`"status"` into `"status_right"`, which still collides, so `pd.merge`'s
suffix rule renames it again to `"status_right_right"`: in the result the
name `"status_right"` denotes the left dataset's own column (position 2,
inside the left block of length 3), and no right-side column is named
`"status_right"` (the right block, `drop 3`, is `["status_right_right"]`). -/
theorem perform_merge_status_right_counterexample :
    (perform_merge
        ⟨some ⟨["id", "status", "status_right"],
            [[Cell.str "1", Cell.str "ls", Cell.str "lr"]]⟩,
         some ⟨["id", "status"], [[Cell.str "1", Cell.str "rs"]]⟩, none, []⟩
        "id" "id" "left").1 = true ∧
    Option.map (fun m => m.cols)
      ((perform_merge
          ⟨some ⟨["id", "status", "status_right"],
              [[Cell.str "1", Cell.str "ls", Cell.str "lr"]]⟩,
           some ⟨["id", "status"], [[Cell.str "1", Cell.str "rs"]]⟩, none, []⟩
          "id" "id" "left").2.merge_result) =
      some ["id", "status", "status_right", "status_right_right"] ∧
    Option.map (fun m => decide ("status_right" ∈ m.cols.drop 3))
      ((perform_merge
          ⟨some ⟨["id", "status", "status_right"],
              [[Cell.str "1", Cell.str "ls", Cell.str "lr"]]⟩,
           some ⟨["id", "status"], [[Cell.str "1", Cell.str "rs"]]⟩, none, []⟩
          "id" "id" "left").2.merge_result) = some false := by decide

/-- Claim C7 (amended): in every successful merge, for every right-side
column `c` that collides with a left-side column name, `c` being neither
key and the name `c ++ "_right"` not itself a left column, the result's
columns are the left columns (in order) followed by the right block; the
left block contains `c` (the left dataset's column) and the right block
contains `c ++ "_right"` (the right dataset's renamed column).  The
proviso `c ++ "_right" ∉ datasetA.cols` is forced by the counterexample:
when the left dataset already owns that name, the right column is suffixed
twice by `pd.merge` and lands as `c ++ "_right_right"`. -/
theorem perform_merge_conflict_suffix (st : EngineState) (A B : Dataset)
    (k1 k2 how c : String)
    (h1 : st.df1 = some A) (h2 : st.df2 = some B)
    (hsucc : (perform_merge st k1 k2 how).1 = true)
    (hcB : c ∈ B.cols) (hcA : c ∈ A.cols) (hck1 : c ≠ k1) (hck2 : c ≠ k2)
    (hcr : (c ++ "_right") ∉ A.cols) :
    ∀ M, (perform_merge st k1 k2 how).2.merge_result = some M →
      M.cols.take A.cols.length = A.cols ∧
      c ∈ M.cols.take A.cols.length ∧
      (c ++ "_right") ∈ M.cols.drop A.cols.length := by
  obtain ⟨df1, df2, mr, dk⟩ := st
  simp only at h1 h2
  subst h1
  subst h2
  simp only [perform_merge] at hsucc ⊢
  split_ifs at hsucc ⊢ with hkeys hdupR hcnt hdup
  obtain ⟨hk1, hk2⟩ := hkeys
  obtain ⟨i2, hfi2⟩ : ∃ i2, B.cols.findIdx? (· == k2) = some i2 := by
    have hs : (B.cols.findIdx? (· == k2)).isSome := by
      rw [List.findIdx?_isSome, List.any_eq_true]
      exact ⟨k2, hk2, by simp⟩
    exact Option.isSome_iff_exists.mp hs
  obtain ⟨hi2lt, hi2val, _⟩ := List.findIdx?_eq_some_iff_getElem.mp hfi2
  have hi2v : B.cols[i2] = k2 := by simpa using hi2val
  obtain ⟨li, hfl⟩ : ∃ li, A.cols.findIdx? (· == k1) = some li := by
    have hs : (A.cols.findIdx? (· == k1)).isSome := by
      rw [List.findIdx?_isSome, List.any_eq_true]
      exact ⟨k1, hk1, by simp⟩
    exact Option.isSome_iff_exists.mp hs
  have hrc : mergedRightCols A.cols k1 k2 B.cols =
      B.cols.map (fun x =>
        (fun x => if x ∈ A.cols ∧ x ≠ k1 then x ++ "_right" else x)
          ((fun x => if x ∈ A.cols ∧ x ≠ k1 then x ++ "_right" else x)
            (if x = k2 then k1 else x))) := by
    unfold mergedRightCols rightColsAfterRenames suffixPass
    rw [List.map_map, List.map_map]
    rfl
  have hval : (mergedRightCols A.cols k1 k2 B.cols)[i2]? = some k1 := by
    rw [hrc, List.getElem?_map, List.getElem?_eq_getElem hi2lt]
    simp only [Option.map_some']
    rw [hi2v]
    have g1 : (if k1 ∈ A.cols ∧ k1 ≠ k1 then k1 ++ "_right" else k1) = k1 :=
      if_neg (fun h => h.2 rfl)
    rw [if_pos rfl, g1, g1]
  have hmem : k1 ∈ mergedRightCols A.cols k1 k2 B.cols := by
    obtain ⟨hlt, hv⟩ := List.getElem?_eq_some.mp hval
    have hg := List.getElem_mem hlt
    rw [hv] at hg
    exact hg
  have hcntR : (mergedRightCols A.cols k1 k2 B.cols).count k1 = 1 := by
    have hlt2 : (mergedRightCols A.cols k1 k2 B.cols).count k1 < 2 := by
      by_contra hge
      apply hdup
      unfold hasDup
      rw [List.any_eq_true]
      exact ⟨k1, hmem, by simp; omega⟩
    have hpos := List.count_pos_iff.mpr hmem
    omega
  have hfr : (mergedRightCols A.cols k1 k2 B.cols).findIdx? (· == k1) = some i2 :=
    findIdx_eq_of_getElem_count_one hval hcntR
  cases hj : joinOn (normKeyCol A k1)
      ⟨mergedRightCols A.cols k1 k2 B.cols, (normKeyCol B k2).rows⟩ k1 how with
  | none =>
    rw [hj] at hsucc
    simp at hsucc
  | some m =>
    intro M hM
    have hM' : (if diagnosticsRaise A.cols m.cols then
          (false,
            ({ df1 := some A, df2 := some B, merge_result := some m,
               detected_keys := dk } : EngineState))
        else
          (true,
            { df1 := some A, df2 := some B, merge_result := some m,
              detected_keys := dk })).2.merge_result = some M := hM
    have hmM : m = M := by
      split_ifs at hM' <;> simpa using hM'
    subst hmM
    have hmc : m.cols =
        A.cols ++ (mergedRightCols A.cols k1 k2 B.cols).eraseIdx i2 := by
      unfold joinOn at hj
      rw [normKeyCol_cols, hfl, hfr] at hj
      rw [Option.map_eq_some'] at hj
      obtain ⟨rows, _, hmk⟩ := hj
      rw [← hmk]
    refine ⟨?_, ?_, ?_⟩
    · rw [hmc, List.take_left]
    · rw [hmc, List.take_left]
      exact hcA
    · rw [hmc, List.drop_left]
      refine mem_eraseIdx_of_ne ?_ hval ?_
      · rw [hrc, List.mem_map]
        refine ⟨c, hcB, ?_⟩
        have e1 : (fun x => if x ∈ A.cols ∧ x ≠ k1 then x ++ "_right" else x) c
            = c ++ "_right" := if_pos ⟨hcA, hck1⟩
        have e2 : (fun x => if x ∈ A.cols ∧ x ≠ k1 then x ++ "_right" else x)
            (c ++ "_right") = c ++ "_right" := if_neg (fun h => hcr h.1)
        rw [if_neg hck2, e1, e2]
      · intro he
        exact hcr (he ▸ hk1)

/-- Witness for the amended claim C7: merging two one-row datasets that
share the non-key column `"status"` (and where the left dataset has no
`"status_right"` column) yields `"status"` in the left block and
`"status_right"` in the right block of the result's columns. -/
theorem perform_merge_conflict_suffix_witness :
    (perform_merge
        ⟨some ⟨["id", "status"], [[Cell.str "1", Cell.str "ls"]]⟩,
         some ⟨["id", "status"], [[Cell.str "2", Cell.str "rs"]]⟩, none, []⟩
        "id" "id" "left").1 = true ∧
    ∀ M, (perform_merge
        ⟨some ⟨["id", "status"], [[Cell.str "1", Cell.str "ls"]]⟩,
         some ⟨["id", "status"], [[Cell.str "2", Cell.str "rs"]]⟩, none, []⟩
        "id" "id" "left").2.merge_result = some M →
      M.cols.take 2 = ["id", "status"] ∧
      "status" ∈ M.cols.take 2 ∧
      ("status" ++ "_right") ∈ M.cols.drop 2 :=
  ⟨by decide,
    perform_merge_conflict_suffix _
      ⟨["id", "status"], [[Cell.str "1", Cell.str "ls"]]⟩
      ⟨["id", "status"], [[Cell.str "2", Cell.str "rs"]]⟩
      "id" "id" "left" "status" rfl rfl (by decide) (by decide) (by decide)
      (by decide) (by decide) (by decide)⟩

/-! ## Claim C8 -/

theorem toUpper_eq_iff_small (x : Char) (hx : x.toNat < 65) (c : Char) :
    c.toUpper = x ↔ c = x := by
  constructor
  · intro h
    by_cases hl : 97 ≤ c.toNat ∧ c.toNat ≤ 122
    · have hv := toUpper_toNat_of_lower c hl
      have := congrArg Char.toNat h
      rw [hv] at this
      omega
    · rw [toUpper_eq_self_of_not_lower c hl] at h
      exact h
  · intro h
    subst h
    exact toUpper_eq_self_of_not_lower c (by omega)

theorem eq_of_toUpper_eq_small {c d : Char} (h : c.toUpper = d.toUpper)
    (hc : c.toNat < 65) : c = d := by
  have hcu : c.toUpper = c := toUpper_eq_self_of_not_lower c (by omega)
  have hd : d.toUpper = c := by rw [← h, hcu]
  exact ((toUpper_eq_iff_small c hc d).mp hd).symm

theorem isSpaceChar_toNat_lt {c : Char} (h : isSpaceChar c = true) :
    c.toNat < 65 := by
  unfold isSpaceChar at h
  simp only [Bool.or_eq_true, decide_eq_true_eq] at h
  rcases h with ((h | h) | h) | h <;> subst h <;> decide

theorem isSpaceChar_congr {c d : Char} (h : c.toUpper = d.toUpper) :
    isSpaceChar c = isSpaceChar d := by
  unfold isSpaceChar
  have hs : ∀ x : Char, x.toNat < 65 → ((c = x) ↔ (d = x)) := by
    intro x hx
    rw [← toUpper_eq_iff_small x hx c, ← toUpper_eq_iff_small x hx d, h]
  rw [decide_eq_decide.mpr (hs ' ' (by decide)),
    decide_eq_decide.mpr (hs '\t' (by decide)),
    decide_eq_decide.mpr (hs '\n' (by decide)),
    decide_eq_decide.mpr (hs '\r' (by decide))]

theorem dropWhile_space_caseEq : ∀ (l₁ l₂ : List Char),
    l₁.map Char.toUpper = l₂.map Char.toUpper →
    (l₁.dropWhile isSpaceChar).map Char.toUpper =
      (l₂.dropWhile isSpaceChar).map Char.toUpper ∧
    (l₁.dropWhile isSpaceChar = l₂.dropWhile isSpaceChar → l₁ = l₂) := by
  intro l₁
  induction l₁ with
  | nil =>
    intro l₂ h
    cases l₂ with
    | nil => exact ⟨rfl, fun _ => rfl⟩
    | cons d t => simp at h
  | cons c t ih =>
    intro l₂ h
    cases l₂ with
    | nil => simp at h
    | cons d t₂ =>
      rw [List.map_cons, List.map_cons] at h
      injection h with hc ht
      rw [List.dropWhile_cons, List.dropWhile_cons]
      by_cases hsp : isSpaceChar c = true
      · have hspd : isSpaceChar d = true := by rw [← isSpaceChar_congr hc]; exact hsp
        rw [if_pos hsp, if_pos hspd]
        have hcd : c = d := eq_of_toUpper_eq_small hc (isSpaceChar_toNat_lt hsp)
        obtain ⟨p1, p2⟩ := ih t₂ ht
        exact ⟨p1, fun he => by rw [hcd, p2 he]⟩
      · have hspd : ¬ isSpaceChar d = true := by rw [← isSpaceChar_congr hc]; exact hsp
        rw [if_neg hsp, if_neg hspd]
        refine ⟨?_, fun he => he⟩
        rw [List.map_cons, List.map_cons, hc, ht]

theorem trimList_caseEq (l₁ l₂ : List Char)
    (h : l₁.map Char.toUpper = l₂.map Char.toUpper) :
    (trimList l₁).map Char.toUpper = (trimList l₂).map Char.toUpper ∧
    (trimList l₁ = trimList l₂ → l₁ = l₂) := by
  unfold trimList trimLeft
  obtain ⟨q1, q2⟩ := dropWhile_space_caseEq l₁ l₂ h
  have hrev : ((l₁.dropWhile isSpaceChar).reverse).map Char.toUpper =
      ((l₂.dropWhile isSpaceChar).reverse).map Char.toUpper := by
    rw [List.map_reverse, List.map_reverse, q1]
  obtain ⟨r1, r2⟩ := dropWhile_space_caseEq _ _ hrev
  constructor
  · rw [List.map_reverse, List.map_reverse, r1]
  · intro he
    apply q2
    have he' := congrArg List.reverse he
    rw [List.reverse_reverse, List.reverse_reverse] at he'
    have := r2 he'
    exact List.reverse_inj.mp this

theorem remDot0_caseEq : ∀ (l₁ l₂ : List Char),
    l₁.map Char.toUpper = l₂.map Char.toUpper →
    (remDot0 l₁).map Char.toUpper = (remDot0 l₂).map Char.toUpper ∧
    (remDot0 l₁ = remDot0 l₂ → l₁ = l₂)
  | [], l₂, h => by
    cases l₂ with
    | nil => exact ⟨rfl, fun _ => rfl⟩
    | cons d t => simp at h
  | [c], l₂, h => by
    cases l₂ with
    | nil => simp at h
    | cons d t₂ =>
      cases t₂ with
      | nil =>
        rw [List.map_cons, List.map_cons] at h
        injection h with hc _
        refine ⟨?_, ?_⟩
        · show [c].map Char.toUpper = [d].map Char.toUpper
          rw [List.map_cons, List.map_cons, hc]
        · intro he
          have : c = d := by
            have : [c] = [d] := he
            injection this
          rw [this]
      | cons e t₃ => simp at h
  | c :: d :: t, l₂, h => by
    cases l₂ with
    | nil => simp at h
    | cons c₂ t₂ =>
      cases t₂ with
      | nil => simp at h
      | cons d₂ t₃ =>
        rw [List.map_cons, List.map_cons, List.map_cons, List.map_cons] at h
        injection h with hc h'
        injection h' with hd ht
        by_cases hp : c = '.' ∧ d = '0'
        · have hc2 : c₂ = '.' := by
            apply (toUpper_eq_iff_small '.' (by decide) c₂).mp
            rw [← hc, hp.1]
            decide
          have hd2 : d₂ = '0' := by
            apply (toUpper_eq_iff_small '0' (by decide) d₂).mp
            rw [← hd, hp.2]
            decide
          obtain ⟨p1, p2⟩ := remDot0_caseEq t t₃ ht
          simp only [remDot0]
          rw [if_pos hp, if_pos ⟨hc2, hd2⟩]
          refine ⟨p1, ?_⟩
          intro he
          rw [hp.1, hp.2, hc2, hd2, p2 he]
        · have hiff1 : c = '.' ↔ c₂ = '.' := by
            rw [← toUpper_eq_iff_small '.' (by decide) c,
              ← toUpper_eq_iff_small '.' (by decide) c₂, hc]
          have hiff2 : d = '0' ↔ d₂ = '0' := by
            rw [← toUpper_eq_iff_small '0' (by decide) d,
              ← toUpper_eq_iff_small '0' (by decide) d₂, hd]
          have hp₂ : ¬(c₂ = '.' ∧ d₂ = '0') :=
            fun h2 => hp ⟨hiff1.mpr h2.1, hiff2.mpr h2.2⟩
          obtain ⟨p1, p2⟩ := remDot0_caseEq (d :: t) (d₂ :: t₃)
            (by rw [List.map_cons, List.map_cons, hd, ht])
          simp only [remDot0]
          rw [if_neg hp, if_neg hp₂]
          refine ⟨?_, ?_⟩
          · rw [List.map_cons, List.map_cons, hc, p1]
          · intro he
            injection he with he1 he2
            rw [he1, p2 he2]

/-- Claim C8: the Merge Executor's key normalization
(`astype(str).str.strip().str.replace('.0', '')` at core.py lines 250-251)
applies no case conversion, so two key values that differ only in letter
case (equal after character-wise upper-casing, but not equal) remain
distinct after `normalizeMergeKey` - while the detector's token
normalization `normalizeToken` (and the validator's upper-cased
comparison, `pyUpper`) identify exactly such values. -/
theorem normalizeMergeKey_case_sensitive (s t : String) (hne : s ≠ t)
    (hcase : s.data.map Char.toUpper = t.data.map Char.toUpper) :
    normalizeMergeKey s ≠ normalizeMergeKey t ∧
    normalizeToken s = normalizeToken t ∧
    pyUpper s = pyUpper t := by
  obtain ⟨q1, q2⟩ := trimList_caseEq s.data t.data hcase
  obtain ⟨r1, r2⟩ := remDot0_caseEq (trimList s.data) (trimList t.data) q1
  refine ⟨?_, ?_, ?_⟩
  · intro he
    apply hne
    have hdata : remDot0 (trimList s.data) = remDot0 (trimList t.data) :=
      congrArg String.data he
    have hd2 := q2 (r2 hdata)
    cases s with
    | mk ds =>
      cases t with
      | mk dt => exact congrArg String.mk hd2
  · show (⟨(remDot0 (trimList s.data)).map Char.toUpper⟩ : String) =
        ⟨(remDot0 (trimList t.data)).map Char.toUpper⟩
    rw [r1]
  · show (⟨s.data.map Char.toUpper⟩ : String) = ⟨t.data.map Char.toUpper⟩
    rw [hcase]

/-- Witness for claim C8 at the concrete pair `"a"`, `"A"`. -/
theorem normalizeMergeKey_case_sensitive_witness :
    ("a" : String) ≠ "A" ∧
    "a".data.map Char.toUpper = "A".data.map Char.toUpper ∧
    (normalizeMergeKey "a" ≠ normalizeMergeKey "A" ∧
     normalizeToken "a" = normalizeToken "A" ∧
     pyUpper "a" = pyUpper "A") :=
  ⟨by decide, by decide,
    normalizeMergeKey_case_sensitive "a" "A" (by decide) (by decide)⟩
